import Mathlib

/-!
Verification development for the document feature store
(`web/proxy/feature_store.py`): a shallow embedding of the text
normalization (`clean_md`), markdown chunking (`split_md`), document
building for the response and reject indexes, retriever loading
(`load_feature`), and corpus preprocessing (`preprocess` /
`initialize`), together with theorems settling the specification's
claims about them.

Python strings are modelled as `List Char`; the external langchain
splitters (`MarkdownHeaderTextSplitter`, `MarkdownTextSplitter`) and the
external `FileOperation` / filesystem effects are modelled as explicit
function parameters, so every theorem quantifies over their behavior.
The regular-expression substitutions of `clean_md` are embedded as
executable scanners with Python `re` semantics (leftmost match, lazy
quantifiers with backtracking, `.` not matching newline unless DOTALL).
-/

/-- Python strings are modelled as lists of characters. -/
abbrev Str := List Char

/-- Convert a Lean string literal into the character-list model. -/
def str (s : String) : Str := s.data

/-- The backtick character (code point 96), written via its code point. -/
def btick : Char := Char.ofNat 96

/-- Model of Python `str.lower` on a single character (ASCII range, which
is all the corpus claims exercise). -/
def lowerChar (c : Char) : Char :=
  if 65 ≤ c.toNat ∧ c.toNat ≤ 90 then Char.ofNat (c.toNat + 32) else c

/-- Model of Python `str.lower`. -/
def lowerStr (t : Str) : Str := t.map lowerChar

/-- Scanner for the `.*?\)` tail of the link pattern `\[(.*?)\]\(.*?\)`
(`feature_store.py` line 134): find the first `)` not preceded by a
newline (the lazy `.*?` cannot match `\n` without DOTALL) and return the
remainder after it. -/
def findUrlEnd : Str → Option Str
  | [] => none
  | c :: t => if c = ')' then some t else if c = '\n' then none else findUrlEnd t

/-- Scanner for `(.*?)\]\(.*?\)` after an opening `[`: lazily grow the
label (backtracking to a later `](` when no `)` closes the url part) and
return the matched label together with the remainder after the closing
`)`. `acc` is the reversed label scanned so far. -/
def findLabelSplit : Str → Str → Option (Str × Str)
  | _, [] => none
  | acc, c :: t =>
    if c = '\n' then none
    else
      match t with
      | b :: t2 =>
        if c = ']' ∧ b = '(' then
          match findUrlEnd t2 with
          | some r => some (acc.reverse, r)
          | none => findLabelSplit (c :: acc) t
        else findLabelSplit (c :: acc) t
      | [] => findLabelSplit (c :: acc) t

/-- Fuelled scanner for `re.sub(r'\[(.*?)\]\(.*?\)', r'\1', text)`
(`feature_store.py` lines 134-135): each non-overlapping leftmost match
is replaced by its label group. Fuel bounds the number of scanning
steps; `subLinks` supplies fuel equal to the input length, which always
suffices because every step consumes at least one character. -/
def subLinksF : Nat → Str → Str
  | 0, t => t
  | _ + 1, [] => []
  | f + 1, c :: t =>
    if c = '[' then
      match findLabelSplit [] t with
      | some (label, r) => label ++ subLinksF f r
      | none => c :: subLinksF f t
    else c :: subLinksF f t

/-- Model of the reference-link removal `re.sub(r'\[(.*?)\]\(.*?\)', r'\1', text)`. -/
def subLinks (t : Str) : Str := subLinksF t.length t

/-- Scanner for the closing ``` of a fenced code block: find the first
triple backtick (any characters, newlines included, may precede it under
DOTALL) and return the remainder after it. -/
def findCodeEnd : Str → Option Str
  | [] => none
  | c :: t =>
    match t with
    | b :: d :: t2 =>
      if c = btick ∧ b = btick ∧ d = btick then some t2 else findCodeEnd t
    | _ => none

/-- Fuelled scanner for `re.sub(r'```.*?```', '', text, flags=re.DOTALL)`
(`feature_store.py` lines 138-139): each leftmost non-greedy fenced code
block is removed entirely. -/
def subCodeF : Nat → Str → Str
  | 0, t => t
  | _ + 1, [] => []
  | f + 1, c :: t =>
    match t with
    | b :: d :: t2 =>
      if c = btick ∧ b = btick ∧ d = btick then
        match findCodeEnd t2 with
        | some r => subCodeF f r
        | none => c :: subCodeF f t
      else c :: subCodeF f t
    | _ => c :: subCodeF f t

/-- Model of the code-block removal `re.sub(r'```.*?```', '', text, flags=re.DOTALL)`. -/
def subCode (t : Str) : Str := subCodeF t.length t

/-- Length of the run of underscores at the head of the text. -/
def underRun (t : Str) : Nat := (t.takeWhile (fun c => c == '_')).length

/-- Fuelled scanner for `re.sub('_{5,}', '', text)` (`feature_store.py`
line 142): a maximal run of at least five underscores is removed;
shorter runs are kept unchanged. -/
def subUnderF : Nat → Str → Str
  | 0, t => t
  | _ + 1, [] => []
  | f + 1, c :: t =>
    if c = '_' then
      if 5 ≤ underRun (c :: t) then
        subUnderF f ((c :: t).dropWhile (fun x => x == '_'))
      else
        (c :: t).takeWhile (fun x => x == '_') ++
          subUnderF f ((c :: t).dropWhile (fun x => x == '_'))
    else c :: subUnderF f t

/-- Model of the underscore-run removal `re.sub('_{5,}', '', text)`. -/
def subUnder (t : Str) : Str := subUnderF t.length t

/-- Model of `FeatureStore.clean_md` (`feature_store.py` lines 130-149):
remove reference links, remove fenced code blocks, remove underscore
runs of length at least five, then lowercase. -/
def clean_md (t : Str) : Str := lowerStr (subUnder (subCode (subLinks t)))

/-- Does the link pattern `\[(.*?)\]\(.*?\)` match anywhere in the text? -/
def hasLink : Str → Bool
  | [] => false
  | c :: t => (c == '[' && (findLabelSplit [] t).isSome) || hasLink t

/-- Does the code-block pattern ` ```.*?``` ` (DOTALL) match anywhere in the text? -/
def hasCode : Str → Bool
  | [] => false
  | c :: t =>
    (match t with
     | b :: d :: t2 =>
       c == btick && b == btick && d == btick && (findCodeEnd t2).isSome
     | _ => false) || hasCode t

/-- Does the pattern `_{5,}` match anywhere in the text? -/
def hasUnder : Str → Bool
  | [] => false
  | c :: t => (c == '_' && decide (5 ≤ underRun (c :: t))) || hasUnder t

/-- A header-annotated segment as produced by langchain's
`MarkdownHeaderTextSplitter` configured with levels `#`, `##`, `###`
(`feature_store.py` lines 62-66): page content plus the optional
metadata values for Header 1, Header 2 and Header 3. -/
structure RawDoc where
  pageContent : Str
  h1 : Option Str
  h2 : Option Str
  h3 : Option Str
deriving DecidableEq

/-- Number of entries of the segment's metadata dict (`len(doc.metadata)`). -/
def metaSize (d : RawDoc) : Nat :=
  (if d.h1.isSome then 1 else 0) + (if d.h2.isSome then 1 else 0) +
    (if d.h3.isSome then 1 else 0)

/-- Model of the header-string construction of `FeatureStore.split_md`
(`feature_store.py` lines 103-112): start from the empty string; append
Header 1 if present; append a space and Header 2 if present; append a
space and Header 3 if present. -/
def buildHeader (d : RawDoc) : Str :=
  if 0 < metaSize d then
    let a1 : Str := []
    let a2 := match d.h1 with | some v => a1 ++ v | none => a1
    let a3 := match d.h2 with | some v => a2 ++ ' ' :: v | none => a2
    match d.h3 with | some v => a3 ++ ' ' :: v | none => a3
  else []

/-- List of the present header values of a segment, in level order. -/
def presentHeaders (d : RawDoc) : List Str :=
  (match d.h1 with | some v => [v] | none => []) ++
    (match d.h2 with | some v => [v] | none => []) ++
    (match d.h3 with | some v => [v] | none => [])

/-- Join strings with a single space between consecutive elements. -/
def joinSpace : List Str → Str
  | [] => []
  | [x] => x
  | x :: xs => x ++ ' ' :: joinSpace xs

/-- Modelled from the spec (section 4.2): the header string as the
space-joined concatenation of the segment's active Header 1/2/3 values
with missing levels omitted. Stated for comparison with `buildHeader`,
which is the source's construction. -/
def headerSpecJoin (d : RawDoc) : Str := joinSpace (presentHeaders d)

/-- Model of `FeatureStore.split_md` (`feature_store.py` lines 92-128).
The external splitters are parameters: `hs` is
`self.head_splitter.split_text` and `ss` is the page-content splitting
performed by `self.md_splitter.create_documents` (chunk size 768,
overlap 32). For each header-annotated segment: if its content length
is at least 1024, re-split it and keep sub-chunks of length at least 10;
otherwise keep it whole when its length is at least 10; shorter segments
are dropped. Every kept chunk is the header string, a space, and the
lowercased content (`'{} {}'.format(header, content.lower())`). -/
def split_md (hs : Str → List RawDoc) (ss : Str → List Str) (text : Str) : List Str :=
  (hs text).flatMap (fun doc =>
    let header := buildHeader doc
    if 1024 ≤ doc.pageContent.length then
      (ss doc.pageContent).filterMap (fun sub =>
        if 10 ≤ sub.length then some (header ++ ' ' :: lowerStr sub) else none)
    else if 10 ≤ doc.pageContent.length then
      [header ++ ' ' :: lowerStr doc.pageContent]
    else [])

/-- The chunks reported by the diagnostic loop of `split_md`
(`feature_store.py` lines 124-127): final chunks of length at least
1024, each of which is logged with `logger.debug` (a warning, not an
exception). -/
def split_md_oversize (hs : Str → List RawDoc) (ss : Str → List Str) (text : Str) :
    List Str :=
  (split_md hs ss text).filter (fun c => decide (1024 ≤ c.length))

/-- A langchain `Document`: page content plus its source-path metadata. -/
structure LCDoc where
  pageContent : Str
  source : Str
deriving DecidableEq

/-- Model of `os.path.basename`: the part of the path after the last slash. -/
def basename (p : Str) : Str := (p.reverse.takeWhile (fun c => c != '/')).reverse

/-- Model of `os.path.abspath`; paths are treated abstractly, so this is
the identity. -/
def abspath (p : Str) : Str := p

/-- Model of `os.path.join` for a relative second component. -/
def pathJoin (a b : Str) : Str := a ++ '/' :: b

/-- Model of `FeatureStore.get_md_documents` (`feature_store.py` lines
151-165), used by the response-index build (`ingress_response`): the
file text is cleaned with `clean_md`, prefixed with the file's base name
and a newline, dropped when of length at most 1, and chunked with
`split_md`; each chunk becomes a `Document` whose source is the absolute
path. `fileText` stands for the text read from `filepath`. -/
def get_md_documents (hs : Str → List RawDoc) (ss : Str → List Str)
    (filepath fileText : Str) : List LCDoc :=
  let text := basename filepath ++ '\n' :: clean_md fileText
  if text.length ≤ 1 then []
  else (split_md hs ss text).map (fun c => ⟨c, abspath filepath⟩)

/-- Model of the markdown branch of `FeatureStore.ingress_reject`
(`feature_store.py` lines 221-234): the raw file text ("reject base not
clean md") is prefixed with the file's base name and a newline, dropped
when of length at most 1, and chunked with `split_md`; each chunk
becomes a `Document` whose source is the absolute path. -/
def reject_md_documents (hs : Str → List RawDoc) (ss : Str → List Str)
    (filepath fileText : Str) : List LCDoc :=
  let text := basename filepath ++ '\n' :: fileText
  if text.length ≤ 1 then []
  else (split_md hs ss text).map (fun c => ⟨c, abspath filepath⟩)

/-- Distance strategy passed to `Vectorstore.load_local`; the source
only ever names `DistanceStrategy.MAX_INNER_PRODUCT`. -/
inductive DistStrat
  | maxInnerProduct
deriving DecidableEq

/-- Arguments of a `Vectorstore.load_local` call: the index directory
and the optional `distance_strategy` keyword (none when the call does
not pass one). -/
structure VSLoad where
  dir : Str
  distance : Option DistStrat
deriving DecidableEq

/-- The `search_kwargs` of an `as_retriever` call. -/
structure SearchKw where
  scoreThreshold : ℚ
  k : Nat
deriving DecidableEq

/-- Configuration of a retriever produced by `as_retriever`. -/
structure RetrieverCfg where
  store : VSLoad
  searchType : Str
  kw : SearchKw
deriving DecidableEq

/-- Configuration of a `ContextualCompressionRetriever` (the reranker
`base_compressor` is an external capability and carries no data here). -/
structure CompressionCfg where
  baseRetriever : RetrieverCfg
deriving DecidableEq

/-- The fields `load_feature` sets on success: `self.rejecter`,
`self.retriever` and `self.compression_retriever`. -/
structure LoadedFS where
  rejecter : VSLoad
  retriever : RetrieverCfg
  compressionRetriever : CompressionCfg
deriving DecidableEq

/-- Model of `FeatureStore.load_feature` (`feature_store.py` lines
244-274). The filesystem is modelled by the predicate `pathExists`. If
the response or the reject index directory does not exist, an exception
is raised (modelled as `Except.error` with the source's message);
otherwise the rejecter is loaded without a distance strategy, and the
retriever is loaded with `MAX_INNER_PRODUCT` and configured with search
type `similarity`, `score_threshold` 0.2 and `k` 30, and the compression
retriever wraps the retriever. -/
def load_feature (pathExists : Str → Bool) (workDir featResp featRej : Str) :
    Except Str LoadedFS :=
  let respDir := pathJoin workDir featResp
  let rejDir := pathJoin workDir featRej
  if !(pathExists respDir) || !(pathExists rejDir) then
    .error (respDir ++ str " or " ++ rejDir ++
      str " not exist, please initialize with feature_store.")
  else
    let retr : RetrieverCfg :=
      ⟨⟨respDir, some .maxInnerProduct⟩, str "similarity", ⟨0.2, 30⟩⟩
    .ok ⟨⟨rejDir, none⟩, retr, ⟨retr⟩⟩

/-- The success/fail/skip counters returned by `preprocess`. -/
structure Counter where
  success : Nat
  fail : Nat
  skip : Nat
deriving DecidableEq

/-- Componentwise addition of counters. -/
def Counter.add (a b : Counter) : Counter :=
  ⟨a.success + b.success, a.fail + b.fail, a.skip + b.skip⟩

/-- The zero counter. -/
def Counter.zero : Counter := ⟨0, 0, 0⟩

/-- Contents of the `preprocess` directory, as an association list from
copied base name to originating file path; insertion order is newest
first, so lookup sees the most recent copy. -/
abbrev Dir := List (Str × Str)

/-- Effect of `shutil.copy(filepath, os.path.join(file_dir, basename))`
on the directory contents: the entry for `basename` now holds
`filepath`, shadowing any earlier copy of the same name. -/
def dirInsert (d : Dir) (k v : Str) : Dir := (k, v) :: d

/-- Look up the file most recently copied under base name `key`. -/
def dirLookup : Dir → Str → Option Str
  | [], _ => none
  | (k, v) :: r, key => if k = key then some v else dirLookup r key

/-- The file types accepted for copying by `preprocess`
(`feature_store.py` line 310). -/
def copyTypes : List Str := [str "pdf", str "md", str "text", str "word", str "excel"]

/-- One iteration of the `preprocess` loop body (`feature_store.py`
lines 304-319) on the state (directory contents, counter). The external
`FileOperation.get_type` is the oracle `getType`; a `.error` result
models `get_type` raising, and `copyFile` models `shutil.copy` with
`.error` for a raised copy failure. An exception in the `try` body
increments the fail counter and moves on; an `image` type does nothing;
an accepted type is copied under its base name and counted as success;
any other type is counted as skipped. -/
def ppStep (getType : Str → Except Str Str) (copyFile : Str → Except Str Unit)
    (st : Dir × Counter) (fp : Str) : Dir × Counter :=
  match getType fp with
  | .error _ => (st.1, ⟨st.2.success, st.2.fail + 1, st.2.skip⟩)
  | .ok ty =>
    if ty = str "image" then st
    else if ty ∈ copyTypes then
      match copyFile fp with
      | .error _ => (st.1, ⟨st.2.success, st.2.fail + 1, st.2.skip⟩)
      | .ok _ => (dirInsert st.1 (basename fp) fp, ⟨st.2.success + 1, st.2.fail, st.2.skip⟩)
    else (st.1, ⟨st.2.success, st.2.fail, st.2.skip + 1⟩)

/-- Model of `FeatureStore.preprocess` (`feature_store.py` lines
276-324). `prior` is the pre-existing `work_dir/preprocess` directory
(`none` when absent): when it exists it is removed with `shutil.rmtree`,
and in either case `os.makedirs` recreates it empty; every input file is
then processed by the loop. Returns the directory path, the final
directory contents and the counter. -/
def preprocess (getType : Str → Except Str Str) (copyFile : Str → Except Str Unit)
    (filepaths : List Str) (workDir : Str) (prior : Option Dir) :
    Str × Dir × Counter :=
  let fileDir := pathJoin workDir (str "preprocess")
  let d0 : Dir := match prior with
    | some _ => []
    | none => []
  let st := filepaths.foldl (ppStep getType copyFile) (d0, Counter.zero)
  (fileDir, st.1, st.2)

/-- The counter returned by `preprocess`. -/
def preprocessCounter (getType : Str → Except Str Str) (copyFile : Str → Except Str Unit)
    (filepaths : List Str) (workDir : Str) (prior : Option Dir) : Counter :=
  (preprocess getType copyFile filepaths workDir prior).2.2

/-- The final contents of the `preprocess` directory. -/
def preprocessDir (getType : Str → Except Str Str) (copyFile : Str → Except Str Unit)
    (filepaths : List Str) (workDir : Str) (prior : Option Dir) : Dir :=
  (preprocess getType copyFile filepaths workDir prior).2.1

/-- The externally visible actions `FeatureStore.initialize` may perform
after preprocessing. -/
inductive FSAction
  | ingressResponse (fileDir workDir : Str)
  | ingressReject (fileDir workDir : Str)
  | emptyCache
deriving DecidableEq

/-- Model of `FeatureStore.initialize` (`feature_store.py` lines
326-343): run `preprocess`; when the success count is positive, build
the response index, build the reject index and empty the accelerator
cache; in every case return the counter. The performed index-build
actions are returned as a trace. -/
def initFS (getType : Str → Except Str Str) (copyFile : Str → Except Str Unit)
    (filepaths : List Str) (workDir : Str) (prior : Option Dir) :
    Counter × List FSAction :=
  let r := preprocess getType copyFile filepaths workDir prior
  let counter := r.2.2
  if 0 < counter.success then
    (counter, [.ingressResponse r.1 workDir, .ingressReject r.1 workDir, .emptyCache])
  else (counter, [])

/-- The per-file counter increment of the `preprocess` loop: one fail
when `get_type` or the copy raises, nothing for an image, one success
for an accepted copied type, one skip otherwise. -/
def ppDelta (getType : Str → Except Str Str) (copyFile : Str → Except Str Unit)
    (fp : Str) : Counter :=
  match getType fp with
  | .error _ => ⟨0, 1, 0⟩
  | .ok ty =>
    if ty = str "image" then ⟨0, 0, 0⟩
    else if ty ∈ copyTypes then
      match copyFile fp with
      | .error _ => ⟨0, 1, 0⟩
      | .ok _ => ⟨1, 0, 0⟩
    else ⟨0, 0, 1⟩

/-- The per-file directory effect of the `preprocess` loop: only a
successfully copied accepted file changes the directory, under its base
name. -/
def ppDirStep (getType : Str → Except Str Str) (copyFile : Str → Except Str Unit)
    (d : Dir) (fp : Str) : Dir :=
  match getType fp with
  | .error _ => d
  | .ok ty =>
    if ty = str "image" then d
    else if ty ∈ copyTypes then
      match copyFile fp with
      | .error _ => d
      | .ok _ => dirInsert d (basename fp) fp
    else d

/-- The sum of the per-file counter increments over a file list. -/
def ppCount (getType : Str → Except Str Str) (copyFile : Str → Except Str Unit)
    (files : List Str) : Counter :=
  files.foldr (fun fp acc => (ppDelta getType copyFile fp).add acc) Counter.zero

/-- Demo head splitter: a single segment with no header metadata. -/
def demoHeadSplit : Str → List RawDoc := fun t => [⟨t, none, none, none⟩]

/-- Demo length splitter: keep the content as a single piece. -/
def demoSubSplit : Str → List Str := fun t => [t]

/-- The state `load_feature` produces for a work directory w with both
default index directories present. -/
def demoLoadedFS : LoadedFS :=
  ⟨⟨pathJoin (str "w") (str "db_reject"), none⟩,
   ⟨⟨pathJoin (str "w") (str "db_response"), some DistStrat.maxInnerProduct⟩,
     str "similarity", ⟨0.2, 30⟩⟩,
   ⟨⟨⟨pathJoin (str "w") (str "db_response"), some DistStrat.maxInnerProduct⟩,
     str "similarity", ⟨0.2, 30⟩⟩⟩⟩

/-- Oracle that types every file as markdown. -/
def demoGetType : Str → Except Str Str := fun _ => .ok (str "md")

/-- Oracle whose copies always succeed. -/
def demoCopy : Str → Except Str Unit := fun _ => .ok ()

/-- Oracle whose type detection always raises. -/
def demoGetTypeFail : Str → Except Str Str := fun _ => .error (str "boom")

example : clean_md (str "[[x](y)](z)") = str "[x](z)" := by decide
example : clean_md (clean_md (str "[[x](y)](z)")) = str "x" := by decide
example : clean_md (str "[Label](url) Text") = str "label text" := by decide
example : clean_md (str "a\n```code\nmore```\nb") = str "a\n\nb" := by decide
example : clean_md (str "x_____y") = str "xy" := by decide
example : clean_md (str "x____y") = str "x____y" := by decide
example : clean_md (str "```a``` keep ```b```") = str " keep " := by decide
example : clean_md (str "[a]b](c)") = str "a]b" := by decide
example : clean_md (str "[a](b\nc)") = str "[a](b\nc)" := by decide
example : clean_md (str "``````") = str "" := by decide
example : clean_md (str "`````") = str "`````" := by decide
example : clean_md (str "___```x```___") = str "" := by decide

/-- Converting a valid code point to a character and back is the identity. -/
theorem toNat_ofNat_valid (n : Nat) (h : n.isValidChar) : (Char.ofNat n).toNat = n := by
  rw [Char.ofNat, dif_pos h]; rfl

/-- Lowercasing a character twice is the same as lowercasing it once. -/
theorem lowerChar_idem (c : Char) : lowerChar (lowerChar c) = lowerChar c := by
  unfold lowerChar
  by_cases h : 65 ≤ c.toNat ∧ c.toNat ≤ 90
  · rw [if_pos h]
    have hv : (c.toNat + 32).isValidChar := Or.inl (by omega)
    have ht : (Char.ofNat (c.toNat + 32)).toNat = c.toNat + 32 := toNat_ofNat_valid _ hv
    rw [if_neg (by omega)]
  · rw [if_neg h, if_neg h]

/-- A lowercased character is never an uppercase ASCII letter. -/
theorem lowerChar_not_upper (c : Char) :
    ¬(65 ≤ (lowerChar c).toNat ∧ (lowerChar c).toNat ≤ 90) := by
  unfold lowerChar
  by_cases h : 65 ≤ c.toNat ∧ c.toNat ≤ 90
  · rw [if_pos h]
    have hv : (c.toNat + 32).isValidChar := Or.inl (by omega)
    have ht : (Char.ofNat (c.toNat + 32)).toNat = c.toNat + 32 := toNat_ofNat_valid _ hv
    omega
  · rw [if_neg h]; exact h

/-- Lowercasing a string twice is the same as lowercasing it once. -/
theorem lowerStr_idem (t : Str) : lowerStr (lowerStr t) = lowerStr t := by
  induction t with
  | nil => rfl
  | cons c t ih =>
    simp only [lowerStr, List.map_cons] at ih ⊢
    rw [lowerChar_idem]
    exact congrArg _ ih

/-- Dropping a while-matched part of a list never lengthens it. -/
theorem length_dropWhile_le' (p : Char → Bool) (t : Str) :
    (t.dropWhile p).length ≤ t.length := by
  induction t with
  | nil => simp [List.dropWhile]
  | cons c t ih =>
    by_cases h : p c
    · simp [List.dropWhile, h]; omega
    · simp [List.dropWhile, h]

/-- When the link pattern matches nowhere, the link substitution leaves
the text unchanged. -/
theorem subLinksF_no_match :
    ∀ (f : Nat) (t : Str), t.length ≤ f → hasLink t = false → subLinksF f t = t := by
  intro f
  induction f with
  | zero => intro t _ _; rfl
  | succ f ih =>
    intro t hlen hm
    cases t with
    | nil => rfl
    | cons c t =>
      simp only [hasLink, Bool.or_eq_false_iff, Bool.and_eq_false_iff] at hm
      obtain ⟨h1, h2⟩ := hm
      have hlen' : t.length ≤ f := by simp at hlen; omega
      have ht : subLinksF f t = t := ih t hlen' h2
      by_cases hc : c = '['
      · subst hc
        rcases h1 with h1 | h1
        · simp at h1
        · have hnone : findLabelSplit [] t = none := by
            cases hfind : findLabelSplit [] t with
            | none => rfl
            | some v => rw [hfind] at h1; simp at h1
          simp [subLinksF, hnone, ht]
      · simp [subLinksF, hc, ht]

/-- When the code-block pattern matches nowhere, the code substitution
leaves the text unchanged. -/
theorem subCodeF_no_match :
    ∀ (f : Nat) (t : Str), t.length ≤ f → hasCode t = false → subCodeF f t = t := by
  intro f
  induction f with
  | zero => intro t _ _; rfl
  | succ f ih =>
    intro t hlen hm
    cases t with
    | nil => rfl
    | cons c t =>
      simp only [hasCode, Bool.or_eq_false_iff] at hm
      obtain ⟨h1, h2⟩ := hm
      have hlen' : t.length ≤ f := by simp at hlen; omega
      have ht : subCodeF f t = t := ih t hlen' h2
      cases t with
      | nil => simp [subCodeF, ht]
      | cons b t1 =>
        cases t1 with
        | nil => simp [subCodeF, ht]
        | cons d t2 =>
          simp only [Bool.and_eq_false_iff] at h1
          by_cases hc : c = btick ∧ b = btick ∧ d = btick
          · obtain ⟨hcb, hbb, hdb⟩ := hc
            subst hcb; subst hbb; subst hdb
            have hnone : findCodeEnd t2 = none := by
              cases hfind : findCodeEnd t2 with
              | none => rfl
              | some v =>
                rw [hfind] at h1
                rcases h1 with (((h | h) | h) | h) <;> simp at h
            simp [subCodeF, hnone, ht]
          · simp [subCodeF, hc, ht]

/-- If the underscore pattern matches nowhere in a text, it also matches
nowhere in the text with a while-matched part dropped from the front. -/
theorem hasUnder_dropWhile (p : Char → Bool) :
    ∀ (t : Str), hasUnder t = false → hasUnder (t.dropWhile p) = false := by
  intro t
  induction t with
  | nil => intro h; simpa [List.dropWhile] using h
  | cons c t ih =>
    intro h
    simp only [hasUnder, Bool.or_eq_false_iff] at h
    by_cases hp : p c
    · simpa [List.dropWhile, hp] using ih h.2
    · simpa [List.dropWhile, hp, hasUnder] using h

/-- When the underscore pattern matches nowhere, the underscore
substitution leaves the text unchanged. -/
theorem subUnderF_no_match :
    ∀ (f : Nat) (t : Str), t.length ≤ f → hasUnder t = false → subUnderF f t = t := by
  intro f
  induction f with
  | zero => intro t _ _; rfl
  | succ f ih =>
    intro t hlen hm
    cases t with
    | nil => rfl
    | cons c t =>
      simp only [hasUnder, Bool.or_eq_false_iff, Bool.and_eq_false_iff] at hm
      obtain ⟨h1, h2⟩ := hm
      have hlen' : t.length ≤ f := by simp at hlen; omega
      by_cases hc : c = '_'
      · have hrun : ¬(5 ≤ underRun (c :: t)) := by
          rcases h1 with h1 | h1
          · simp [hc] at h1
          · simpa using h1
        have hdrop : (c :: t).dropWhile (fun x => x == '_') = t.dropWhile (fun x => x == '_') := by
          simp [List.dropWhile, hc]
        have hdu : hasUnder (t.dropWhile (fun x => x == '_')) = false :=
          hasUnder_dropWhile _ t h2
        have hdl : (t.dropWhile (fun x => x == '_')).length ≤ f :=
          le_trans (length_dropWhile_le' _ t) hlen'
        have hsub : subUnderF f ((c :: t).dropWhile (fun x => x == '_')) =
            (c :: t).dropWhile (fun x => x == '_') := by
          rw [hdrop]; exact ih _ hdl hdu
        simp only [subUnderF, if_pos hc, if_neg hrun, hsub]
        exact List.takeWhile_append_dropWhile _ _
      · have ht : subUnderF f t = t := ih t hlen' h2
        simp [subUnderF, hc, ht]

/-- The link substitution is the identity on the empty text for any fuel. -/
theorem subLinksF_nil (f : Nat) : subLinksF f [] = [] := by cases f <;> rfl

/-- The code substitution is the identity on the empty text for any fuel. -/
theorem subCodeF_nil (f : Nat) : subCodeF f [] = [] := by cases f <;> rfl

/-- The underscore substitution is the identity on the empty text for any fuel. -/
theorem subUnderF_nil (f : Nat) : subUnderF f [] = [] := by cases f <;> rfl

/-- Scanning a url part free of `)` and newline finds the closing `)`
right after it. -/
theorem findUrlEnd_append :
    ∀ (url rest : Str), ')' ∉ url → '\n' ∉ url →
      findUrlEnd (url ++ ')' :: rest) = some rest := by
  intro url
  induction url with
  | nil => intro rest _ _; simp [findUrlEnd]
  | cons c url ih =>
    intro rest h1 h2
    simp only [List.mem_cons, not_or] at h1 h2
    simp [findUrlEnd, Ne.symm h1.1, Ne.symm h2.1, ih rest h1.2 h2.2]

/-- One scanning step of `findLabelSplit` when the position neither
aborts on a newline nor matches `](`. -/
theorem findLabelSplit_step (acc : Str) (c b : Char) (t2 : Str)
    (hn : c ≠ '\n') (hcb : ¬(c = ']' ∧ b = '(')) :
    findLabelSplit acc (c :: b :: t2) = findLabelSplit (c :: acc) (b :: t2) := by
  rw [show findLabelSplit acc (c :: b :: t2) =
    (if c = '\n' then none
     else if c = ']' ∧ b = '(' then
       (match findUrlEnd t2 with
        | some r => some (acc.reverse, r)
        | none => findLabelSplit (c :: acc) (b :: t2))
     else findLabelSplit (c :: acc) (b :: t2)) from rfl]
  rw [if_neg hn, if_neg hcb]

/-- Scanning a label free of `]` and newline, followed by `](` and a url
part that closes, matches with exactly that label. -/
theorem findLabelSplit_append :
    ∀ (label u r acc : Str), '\n' ∉ label → ']' ∉ label →
      findUrlEnd u = some r →
      findLabelSplit acc (label ++ ']' :: '(' :: u) = some (acc.reverse ++ label, r) := by
  intro label
  induction label with
  | nil =>
    intro u r acc _ _ hu
    simp [findLabelSplit, hu, show (']' : Char) ≠ '\n' from by decide]
  | cons c label ih =>
    intro u r acc hn hb hu
    simp only [List.mem_cons, not_or] at hn hb
    have hstep : findLabelSplit acc ((c :: label) ++ ']' :: '(' :: u) =
        findLabelSplit (c :: acc) (label ++ ']' :: '(' :: u) := by
      cases label with
      | nil =>
        exact findLabelSplit_step acc c ']' ('(' :: u) (Ne.symm hn.1)
          (fun hh => (Ne.symm hb.1) hh.1)
      | cons d label2 =>
        exact findLabelSplit_step acc c d (label2 ++ ']' :: '(' :: u) (Ne.symm hn.1)
          (fun hh => (Ne.symm hb.1) hh.1)
    rw [hstep, ih u r (c :: acc) hn.2 hb.2 hu]
    simp [List.reverse_cons, List.append_assoc]

/-- Behavior of the link substitution on a whole markdown reference
link: `[label](url)` is replaced by `label`. -/
theorem subLinks_link (label url : Str)
    (h1 : '\n' ∉ label) (h2 : ']' ∉ label) (h3 : ')' ∉ url) (h4 : '\n' ∉ url) :
    subLinks ('[' :: (label ++ (']' :: ('(' :: (url ++ [')']))))) = label := by
  have hurl : findUrlEnd (url ++ [')']) = some [] := by
    simpa using findUrlEnd_append url [] h3 h4
  have hsplit := findLabelSplit_append label (url ++ [')']) [] [] h1 h2 hurl
  simp only [List.reverse_nil, List.nil_append] at hsplit
  simp [subLinks, subLinksF, hsplit, subLinksF_nil]

/-- Scanning a body free of backticks followed by a closing fence finds
that fence. -/
theorem findCodeEnd_fence :
    ∀ (body : Str), (∀ x ∈ body, x ≠ btick) →
      findCodeEnd (body ++ [btick, btick, btick]) = some [] := by
  intro body
  induction body with
  | nil => intro _; simp [findCodeEnd]
  | cons x body ih =>
    intro h
    have hx : x ≠ btick := h x (by simp)
    have ih' := ih (fun y hy => h y (by simp [hy]))
    cases body with
    | nil => simp_all [findCodeEnd]
    | cons y body2 =>
      cases body2 with
      | nil => simp_all [findCodeEnd]
      | cons z body3 => simp_all [findCodeEnd]

/-- Behavior of the code substitution on a whole fenced code block: the
block, backticks included, is removed entirely (the body may contain
newlines, matching the DOTALL flag). -/
theorem subCode_fence (body : Str) (h : ∀ x ∈ body, x ≠ btick) :
    subCode (btick :: btick :: btick :: (body ++ [btick, btick, btick])) = [] := by
  have hend := findCodeEnd_fence body h
  have hlen : (btick :: btick :: btick :: (body ++ [btick, btick, btick])).length =
      body.length + 5 + 1 := by simp
  unfold subCode
  rw [hlen]
  simp [subCodeF, hend, subCodeF_nil]

/-- The underscore run at the head of a run of underscores is the whole run. -/
theorem underRun_replicate (n : Nat) : underRun (List.replicate n '_') = n := by
  unfold underRun
  induction n with
  | zero => simp
  | succ n ih => simp [List.replicate_succ, List.takeWhile_cons, ih]

/-- Dropping the underscores of a run of underscores leaves nothing. -/
theorem dropWhile_underscore_replicate (n : Nat) :
    (List.replicate n '_').dropWhile (fun x => x == '_') = [] := by
  induction n with
  | zero => simp
  | succ n ih => simp [List.replicate_succ, List.dropWhile_cons, ih]

/-- Behavior of the underscore substitution on a run of at least five
underscores: the run is removed entirely. -/
theorem subUnder_replicate (n : Nat) (h : 5 ≤ n) :
    subUnder (List.replicate n '_') = [] := by
  unfold subUnder
  rw [List.length_replicate]
  obtain ⟨m, rfl⟩ : ∃ m, n = m + 1 := ⟨n - 1, by omega⟩
  rw [List.replicate_succ]
  have hrun : underRun ('_' :: List.replicate m '_') = m + 1 := by
    have hr := underRun_replicate (m + 1); rwa [List.replicate_succ] at hr
  have hdrop : ('_' :: List.replicate m '_').dropWhile (fun x => x == '_') = [] := by
    have hd := dropWhile_underscore_replicate (m + 1); rwa [List.replicate_succ] at hd
  simp only [subUnderF, if_pos rfl, hrun, if_pos (show 5 ≤ m + 1 from h), hdrop,
    subUnderF_nil]
  simp

/-- No character of a cleaned text is an uppercase ASCII letter. -/
theorem clean_md_no_upper (t : Str) (c : Char) (hc : c ∈ clean_md t) :
    ¬(65 ≤ c.toNat ∧ c.toNat ≤ 90) := by
  unfold clean_md lowerStr at hc
  obtain ⟨x, _, rfl⟩ := List.mem_map.mp hc
  exact lowerChar_not_upper x

/-- One loop iteration splits into its directory effect and its counter
increment; neither depends on the other component of the state. -/
theorem ppStep_decomp (getType : Str → Except Str Str) (copyFile : Str → Except Str Unit)
    (d : Dir) (c : Counter) (fp : Str) :
    ppStep getType copyFile (d, c) fp =
      (ppDirStep getType copyFile d fp, c.add (ppDelta getType copyFile fp)) := by
  unfold ppStep ppDirStep ppDelta
  cases getType fp with
  | error e => simp [Counter.add]
  | ok ty =>
    by_cases h1 : ty = str "image"
    · simp [h1, Counter.add]
    · by_cases h2 : ty ∈ copyTypes
      · cases copyFile fp with
        | error e => simp [h1, h2, Counter.add]
        | ok u => simp [h1, h2, Counter.add]
      · simp [h1, h2, Counter.add]

/-- Adding the zero counter on the left changes nothing. -/
theorem Counter.zero_add (c : Counter) : Counter.zero.add c = c := by
  simp [Counter.add, Counter.zero]

/-- Adding the zero counter on the right changes nothing. -/
theorem Counter.add_zero (c : Counter) : c.add Counter.zero = c := by
  simp [Counter.add, Counter.zero]

/-- Counter addition is associative. -/
theorem Counter.add_assoc (a b c : Counter) : (a.add b).add c = a.add (b.add c) := by
  simp [Counter.add, Nat.add_assoc]

/-- The whole `preprocess` loop splits into its directory effect and the
sum of its counter increments. -/
theorem ppFold_decomp (getType : Str → Except Str Str) (copyFile : Str → Except Str Unit) :
    ∀ (files : List Str) (d : Dir) (c : Counter),
      files.foldl (ppStep getType copyFile) (d, c) =
        (files.foldl (ppDirStep getType copyFile) d,
          c.add (ppCount getType copyFile files)) := by
  intro files
  induction files with
  | nil => intro d c; simp [ppCount, Counter.add_zero]
  | cons fp files ih =>
    intro d c
    simp only [List.foldl_cons, ppStep_decomp, ih, ppCount, List.foldr_cons]
    rw [Counter.add_assoc]

/-- The counter returned by `preprocess` is the sum of the per-file
increments. -/
theorem preprocessCounter_eq (getType : Str → Except Str Str)
    (copyFile : Str → Except Str Unit) (files : List Str) (workDir : Str)
    (prior : Option Dir) :
    preprocessCounter getType copyFile files workDir prior =
      ppCount getType copyFile files := by
  unfold preprocessCounter preprocess
  cases prior <;> simp [ppFold_decomp, Counter.zero_add]

/-- The directory produced by `preprocess` is the fold of the per-file
directory effects from the empty directory. -/
theorem preprocessDir_eq (getType : Str → Except Str Str)
    (copyFile : Str → Except Str Unit) (files : List Str) (workDir : Str)
    (prior : Option Dir) :
    preprocessDir getType copyFile files workDir prior =
      files.foldl (ppDirStep getType copyFile) [] := by
  unfold preprocessDir preprocess
  cases prior <;> simp [ppFold_decomp]

/-- Counter sums split over list concatenation. -/
theorem ppCount_append (getType : Str → Except Str Str)
    (copyFile : Str → Except Str Unit) (xs ys : List Str) :
    ppCount getType copyFile (xs ++ ys) =
      (ppCount getType copyFile xs).add (ppCount getType copyFile ys) := by
  induction xs with
  | nil => simp [ppCount, Counter.zero_add]
  | cons fp xs ih =>
    simp only [List.cons_append, ppCount, List.foldr_cons] at ih ⊢
    rw [ih, Counter.add_assoc]

/-- No accepted copy type is the string image. -/
theorem copyTypes_ne_image : ∀ ty ∈ copyTypes, ty ≠ str "image" := by decide

/-- Claim C1: for every markdown header split and every length re-split,
every chunk emitted by `split_md` has length at least 10, and length
strictly below 1024 except for the chunks collected by the diagnostic
loop (`split_md_oversize`), which are only logged; `split_md` is a total
function, so no input raises an exception. -/
theorem claim_C1_split_md_chunk_bounds
    (hs : Str → List RawDoc) (ss : Str → List Str) (text : Str) (c : Str)
    (hmem : c ∈ split_md hs ss text) :
    10 ≤ c.length ∧ (c.length < 1024 ∨ c ∈ split_md_oversize hs ss text) := by
  constructor
  · unfold split_md at hmem
    obtain ⟨doc, hdoc, hc⟩ := List.mem_flatMap.mp hmem
    dsimp only at hc
    by_cases h1 : 1024 ≤ doc.pageContent.length
    · rw [if_pos h1] at hc
      obtain ⟨sub, hsub, heq⟩ := List.mem_filterMap.mp hc
      by_cases h2 : 10 ≤ sub.length
      · rw [if_pos h2] at heq
        have := Option.some.inj heq
        subst this
        simp [lowerStr]
        omega
      · rw [if_neg h2] at heq
        exact absurd heq (by simp)
    · rw [if_neg h1] at hc
      by_cases h2 : 10 ≤ doc.pageContent.length
      · rw [if_pos h2] at hc
        simp only [List.mem_singleton] at hc
        subst hc
        simp [lowerStr]
        omega
      · rw [if_neg h2] at hc
        simp at hc
  · by_cases hlt : c.length < 1024
    · exact Or.inl hlt
    · refine Or.inr (List.mem_filter.mpr ⟨hmem, ?_⟩)
      simp only [decide_eq_true_eq]
      omega

/-- Witness for C1: a concrete single-segment split of a ten-character
text, whose one chunk is the header space plus the content. -/
theorem claim_C1_witness :
    10 ≤ (str " 0123456789").length ∧
      ((str " 0123456789").length < 1024 ∨
        str " 0123456789" ∈ split_md_oversize demoHeadSplit demoSubSplit (str "0123456789")) :=
  claim_C1_split_md_chunk_bounds demoHeadSplit demoSubSplit
    (str "0123456789") (str " 0123456789") (by decide)

/-- Claim C2: the response-index pipeline for markdown files equals the
reject-index pipeline applied to the `clean_md`-normalized text, for all
external splitters and inputs — so `clean_md` is applied on the response
side and not on the reject side. The two concrete evaluations exhibit
the asymmetry on a file with a code block: the reject documents keep the
raw (lowercased) code block, the response documents do not. -/
theorem claim_C2_clean_md_asymmetry :
    (∀ (hs : Str → List RawDoc) (ss : Str → List Str) (fp raw : Str),
      get_md_documents hs ss fp raw = reject_md_documents hs ss fp (clean_md raw)) ∧
    get_md_documents demoHeadSplit demoSubSplit (str "a.md")
        (str "Question ```SECRET``` Answer") =
      [⟨str " a.md\nquestion  answer", str "a.md"⟩] ∧
    reject_md_documents demoHeadSplit demoSubSplit (str "a.md")
        (str "Question ```SECRET``` Answer") =
      [⟨str " a.md\nquestion ```secret``` answer", str "a.md"⟩] :=
  ⟨fun _ _ _ _ => rfl, by decide, by decide⟩

/-- Claim C3: the behavior of `clean_md` — it is exactly the link
substitution, then the code-block substitution, then the underscore
substitution, then lowercasing; a reference link `[label](url)` is
replaced by its label; a fenced code block is removed entirely (its body
may span newlines); a run of at least five underscores is removed; no
uppercase ASCII letter survives; and a compound concrete example. -/
theorem claim_C3_clean_md_behavior :
    (∀ t : Str, clean_md t = lowerStr (subUnder (subCode (subLinks t)))) ∧
    (∀ label url : Str, '\n' ∉ label → ']' ∉ label → ')' ∉ url → '\n' ∉ url →
      subLinks ('[' :: (label ++ (']' :: ('(' :: (url ++ [')']))))) = label) ∧
    (∀ body : Str, (∀ x ∈ body, x ≠ btick) →
      subCode (btick :: btick :: btick :: (body ++ [btick, btick, btick])) = []) ∧
    (∀ n : Nat, 5 ≤ n → subUnder (List.replicate n '_') = []) ∧
    (∀ (t : Str) (c : Char), c ∈ clean_md t → ¬(65 ≤ c.toNat ∧ c.toNat ≤ 90)) ∧
    clean_md (str "See [The Guide](http://e.com/g) and\n```py\nX = 1\n```\n_____ DONE") =
      str "see the guide and\n\n done" :=
  ⟨fun _ => rfl, subLinks_link, subCode_fence, subUnder_replicate, clean_md_no_upper,
    by decide⟩

/-- Witness for C3 at concrete inputs: a link with label ab and url cd,
a code fence with a newline in its body, and a run of seven underscores. -/
theorem claim_C3_witness :
    subLinks ('[' :: ((str "ab") ++ (']' :: ('(' :: ((str "cd") ++ [')']))))) = str "ab" ∧
    subCode (btick :: btick :: btick :: ((str "x\ny") ++ [btick, btick, btick])) = [] ∧
    subUnder (List.replicate 7 '_') = [] ∧
    ¬(65 ≤ ('a' : Char).toNat ∧ ('a' : Char).toNat ≤ 90) :=
  ⟨claim_C3_clean_md_behavior.2.1 (str "ab") (str "cd")
      (by decide) (by decide) (by decide) (by decide),
   claim_C3_clean_md_behavior.2.2.1 (str "x\ny") (by decide),
   claim_C3_clean_md_behavior.2.2.2.1 7 (by decide),
   claim_C3_clean_md_behavior.2.2.2.2.1 (str "a") 'a' (by decide)⟩

/-- Counterexample to claim C4: cleaning is not idempotent. Nested link
syntax cleans to a fresh link, which a second cleaning collapses again. -/
theorem claim_C4_counterexample :
    clean_md (clean_md (str "[[x](y)](z)")) ≠ clean_md (str "[[x](y)](z)") := by decide

/-- Claim C4 amended: cleaning is idempotent on every input whose
cleaned form matches none of the three removal patterns (link, fenced
code block, five-plus underscore run) — first cleaning can create fresh
pattern occurrences, as the counterexample shows, and only then does a
second cleaning differ. -/
theorem claim_C4_amended_idempotent (t : Str)
    (h1 : hasLink (clean_md t) = false) (h2 : hasCode (clean_md t) = false)
    (h3 : hasUnder (clean_md t) = false) :
    clean_md (clean_md t) = clean_md t := by
  have hl : subLinks (clean_md t) = clean_md t :=
    subLinksF_no_match _ _ le_rfl h1
  have hc : subCode (clean_md t) = clean_md t :=
    subCodeF_no_match _ _ le_rfl h2
  have hu : subUnder (clean_md t) = clean_md t :=
    subUnderF_no_match _ _ le_rfl h3
  show lowerStr (subUnder (subCode (subLinks (clean_md t)))) = clean_md t
  rw [hl, hc, hu]
  exact lowerStr_idem _

/-- Witness for the amended C4 at a concrete pattern-free input. -/
theorem claim_C4_witness :
    hasLink (clean_md (str "Hello World 42")) = false ∧
    hasCode (clean_md (str "Hello World 42")) = false ∧
    hasUnder (clean_md (str "Hello World 42")) = false ∧
    clean_md (clean_md (str "Hello World 42")) = clean_md (str "Hello World 42") :=
  ⟨by decide, by decide, by decide,
    claim_C4_amended_idempotent (str "Hello World 42") (by decide) (by decide) (by decide)⟩

/-- Counterexample to claim C5: for a segment with Header 2 but no
Header 1, the built header string carries a leading space, so it is not
the space-joined concatenation of the present header values; the chunk
emitted for such a segment carries that leading-space header. -/
theorem claim_C5_counterexample :
    buildHeader ⟨str "0123456789", none, some (str "Two"), none⟩ ≠
      headerSpecJoin ⟨str "0123456789", none, some (str "Two"), none⟩ ∧
    split_md (fun _ => [⟨str "0123456789", none, some (str "Two"), none⟩]) demoSubSplit
        (str "ignored") = [str " Two 0123456789"] := by
  constructor
  · decide
  · decide

/-- Claim C5 amended: the header string is the space-joined
concatenation of the present Header 1/2/3 values whenever Header 1 is
present or no deeper header is; when Header 1 is absent but Header 2 or
Header 3 is present, the code prefixes an extra leading space. -/
theorem claim_C5_amended_header_join (d : RawDoc)
    (h : d.h1.isSome = true ∨ (d.h2 = none ∧ d.h3 = none)) :
    buildHeader d = headerSpecJoin d := by
  obtain ⟨pc, h1, h2, h3⟩ := d
  rcases h1 with _ | v1 <;> rcases h2 with _ | v2 <;> rcases h3 with _ | v3 <;>
    simp_all [buildHeader, metaSize, headerSpecJoin, presentHeaders, joinSpace]

/-- Witness for the amended C5 at a segment with Header 1 and Header 3. -/
theorem claim_C5_witness :
    buildHeader ⟨str "body", some (str "One"), none, some (str "Three")⟩ =
      headerSpecJoin ⟨str "body", some (str "One"), none, some (str "Three")⟩ :=
  claim_C5_amended_header_join ⟨str "body", some (str "One"), none, some (str "Three")⟩
    (Or.inl rfl)

/-- Claim C6: whenever `load_feature` succeeds, the response retriever
is configured with search type similarity, score threshold 0.2, at most
30 candidates and max-inner-product distance on the response index
directory, while the rejecter was loaded without a distance strategy. -/
theorem claim_C6_retriever_config
    (pathExists : Str → Bool) (workDir featResp featRej : Str) (st : LoadedFS)
    (h : load_feature pathExists workDir featResp featRej = .ok st) :
    st.retriever.searchType = str "similarity" ∧
    st.retriever.kw.scoreThreshold = 0.2 ∧
    st.retriever.kw.k = 30 ∧
    st.retriever.store.distance = some DistStrat.maxInnerProduct ∧
    st.retriever.store.dir = pathJoin workDir featResp ∧
    st.rejecter.distance = none ∧
    st.compressionRetriever.baseRetriever = st.retriever := by
  unfold load_feature at h
  dsimp only at h
  split at h
  · exact Except.noConfusion h
  · have hst := Except.ok.inj h
    subst hst
    exact ⟨rfl, rfl, rfl, rfl, rfl, rfl, rfl⟩

/-- Witness for C6 at a filesystem where every path exists. -/
theorem claim_C6_witness :
    demoLoadedFS.retriever.searchType = str "similarity" ∧
    demoLoadedFS.retriever.kw.scoreThreshold = 0.2 ∧
    demoLoadedFS.retriever.kw.k = 30 ∧
    demoLoadedFS.retriever.store.distance = some DistStrat.maxInnerProduct ∧
    demoLoadedFS.retriever.store.dir = pathJoin (str "w") (str "db_response") ∧
    demoLoadedFS.rejecter.distance = none ∧
    demoLoadedFS.compressionRetriever.baseRetriever = demoLoadedFS.retriever :=
  claim_C6_retriever_config (fun _ => true) (str "w") (str "db_response")
    (str "db_reject") demoLoadedFS rfl

/-- Claim C7: when the response or the reject index directory is
missing, `load_feature` raises (returns the source's error, never an
empty store); when both exist it completes, setting the rejecter, the
retriever and the compression retriever. -/
theorem claim_C7_load_feature_requires_dirs :
    (∀ (pathExists : Str → Bool) (workDir featResp featRej : Str),
      (pathExists (pathJoin workDir featResp) = false ∨
        pathExists (pathJoin workDir featRej) = false) →
      load_feature pathExists workDir featResp featRej =
        .error (pathJoin workDir featResp ++ str " or " ++ pathJoin workDir featRej ++
          str " not exist, please initialize with feature_store.")) ∧
    (∀ (pathExists : Str → Bool) (workDir featResp featRej : Str),
      pathExists (pathJoin workDir featResp) = true →
      pathExists (pathJoin workDir featRej) = true →
      load_feature pathExists workDir featResp featRej =
        .ok ⟨⟨pathJoin workDir featRej, none⟩,
             ⟨⟨pathJoin workDir featResp, some DistStrat.maxInnerProduct⟩,
               str "similarity", ⟨0.2, 30⟩⟩,
             ⟨⟨⟨pathJoin workDir featResp, some DistStrat.maxInnerProduct⟩,
               str "similarity", ⟨0.2, 30⟩⟩⟩⟩) := by
  constructor
  · intro pe wd fr fj h
    unfold load_feature
    rcases h with h | h <;> simp [h]
  · intro pe wd fr fj h1 h2
    unfold load_feature
    simp [h1, h2]

/-- Witness for C7: a filesystem with no directories errors, one with
all directories loads the concrete state. -/
theorem claim_C7_witness :
    load_feature (fun _ => false) (str "w") (str "db_response") (str "db_reject") =
      .error (pathJoin (str "w") (str "db_response") ++ str " or " ++
        pathJoin (str "w") (str "db_reject") ++
        str " not exist, please initialize with feature_store.") ∧
    load_feature (fun _ => true) (str "w") (str "db_response") (str "db_reject") =
      .ok ⟨⟨pathJoin (str "w") (str "db_reject"), none⟩,
           ⟨⟨pathJoin (str "w") (str "db_response"), some DistStrat.maxInnerProduct⟩,
             str "similarity", ⟨0.2, 30⟩⟩,
           ⟨⟨⟨pathJoin (str "w") (str "db_response"), some DistStrat.maxInnerProduct⟩,
             str "similarity", ⟨0.2, 30⟩⟩⟩⟩ :=
  ⟨claim_C7_load_feature_requires_dirs.1 (fun _ => false) (str "w") (str "db_response")
      (str "db_reject") (Or.inl rfl),
   claim_C7_load_feature_requires_dirs.2 (fun _ => true) (str "w") (str "db_response")
      (str "db_reject") rfl rfl⟩

/-- A file whose counter increment is one failure and whose directory
effect is nothing contributes exactly that wherever it sits in the input
list, and every other file is still processed. -/
theorem preprocess_fail_file (getType : Str → Except Str Str)
    (copyFile : Str → Except Str Unit) (workDir : Str) (prior : Option Dir)
    (pre post : List Str) (fp : Str)
    (hdelta : ppDelta getType copyFile fp = ⟨0, 1, 0⟩)
    (hdir : ∀ d, ppDirStep getType copyFile d fp = d) :
    preprocessCounter getType copyFile (pre ++ fp :: post) workDir prior =
      (preprocessCounter getType copyFile (pre ++ post) workDir prior).add ⟨0, 1, 0⟩ ∧
    preprocessDir getType copyFile (pre ++ fp :: post) workDir prior =
      preprocessDir getType copyFile (pre ++ post) workDir prior := by
  constructor
  · rw [preprocessCounter_eq, preprocessCounter_eq, ppCount_append, ppCount_append]
    have hcons : ppCount getType copyFile (fp :: post) =
        (ppDelta getType copyFile fp).add (ppCount getType copyFile post) := rfl
    rw [hcons, hdelta]
    simp [Counter.add]
    omega
  · rw [preprocessDir_eq, preprocessDir_eq, List.foldl_append, List.foldl_append]
    simp only [List.foldl_cons, hdir]

/-- Claim C8: the counter of `preprocess` is additive over the input
list (so no file aborts the processing of the others), a file whose
`get_type` raises contributes exactly one fail and no copy, and a file
whose copy raises after an accepted type likewise contributes exactly
one fail and no copy; the whole list is always counted. -/
theorem claim_C8_preprocess_recovery :
    (∀ (getType : Str → Except Str Str) (copyFile : Str → Except Str Unit)
       (workDir : Str) (prior : Option Dir) (xs ys : List Str),
      preprocessCounter getType copyFile (xs ++ ys) workDir prior =
        (preprocessCounter getType copyFile xs workDir prior).add
          (preprocessCounter getType copyFile ys workDir prior)) ∧
    (∀ (getType : Str → Except Str Str) (copyFile : Str → Except Str Unit)
       (workDir : Str) (prior : Option Dir) (pre post : List Str) (fp e : Str),
      getType fp = .error e →
      preprocessCounter getType copyFile (pre ++ fp :: post) workDir prior =
        (preprocessCounter getType copyFile (pre ++ post) workDir prior).add ⟨0, 1, 0⟩ ∧
      preprocessDir getType copyFile (pre ++ fp :: post) workDir prior =
        preprocessDir getType copyFile (pre ++ post) workDir prior) ∧
    (∀ (getType : Str → Except Str Str) (copyFile : Str → Except Str Unit)
       (workDir : Str) (prior : Option Dir) (pre post : List Str) (fp ty e : Str),
      getType fp = .ok ty → ty ∈ copyTypes → copyFile fp = .error e →
      preprocessCounter getType copyFile (pre ++ fp :: post) workDir prior =
        (preprocessCounter getType copyFile (pre ++ post) workDir prior).add ⟨0, 1, 0⟩ ∧
      preprocessDir getType copyFile (pre ++ fp :: post) workDir prior =
        preprocessDir getType copyFile (pre ++ post) workDir prior) := by
  refine ⟨?_, ?_, ?_⟩
  · intro gt cp wd prior xs ys
    rw [preprocessCounter_eq, preprocessCounter_eq, preprocessCounter_eq, ppCount_append]
  · intro gt cp wd prior pre post fp e hgt
    refine preprocess_fail_file gt cp wd prior pre post fp ?_ ?_
    · simp [ppDelta, hgt]
    · intro d; simp [ppDirStep, hgt]
  · intro gt cp wd prior pre post fp ty e hgt hmem hcp
    have hne : ty ≠ str "image" := copyTypes_ne_image ty hmem
    refine preprocess_fail_file gt cp wd prior pre post fp ?_ ?_
    · simp [ppDelta, hgt, hne, hmem, hcp]
    · intro d; simp [ppDirStep, hgt, hne, hmem, hcp]

/-- Witness for C8: counter additivity on two markdown files, and a
file whose type detection raises contributing exactly one failure. -/
theorem claim_C8_witness :
    preprocessCounter demoGetType demoCopy ([str "a.md"] ++ [str "b.md"]) (str "w") none =
      (preprocessCounter demoGetType demoCopy [str "a.md"] (str "w") none).add
        (preprocessCounter demoGetType demoCopy [str "b.md"] (str "w") none) ∧
    preprocessCounter demoGetTypeFail demoCopy ([] ++ str "bad" :: []) (str "w") none =
      (preprocessCounter demoGetTypeFail demoCopy ([] ++ []) (str "w") none).add
        ⟨0, 1, 0⟩ :=
  ⟨claim_C8_preprocess_recovery.1 demoGetType demoCopy (str "w") none
      [str "a.md"] [str "b.md"],
   (claim_C8_preprocess_recovery.2.1 demoGetTypeFail demoCopy (str "w") none
      [] [] (str "bad") (str "boom") rfl).1⟩

/-- Claim C9: `initialize` always returns the counter of `preprocess`;
when the success count is zero it performs no index build (and, being a
total function, raises nothing); when the success count is positive it
builds the response index, then the reject index, then empties the
cache. -/
theorem claim_C9_initFS_gating
    (getType : Str → Except Str Str) (copyFile : Str → Except Str Unit)
    (filepaths : List Str) (workDir : Str) (prior : Option Dir) :
    (initFS getType copyFile filepaths workDir prior).1 =
      preprocessCounter getType copyFile filepaths workDir prior ∧
    ((preprocessCounter getType copyFile filepaths workDir prior).success = 0 →
      (initFS getType copyFile filepaths workDir prior).2 = []) ∧
    (0 < (preprocessCounter getType copyFile filepaths workDir prior).success →
      (initFS getType copyFile filepaths workDir prior).2 =
        [FSAction.ingressResponse (pathJoin workDir (str "preprocess")) workDir,
         FSAction.ingressReject (pathJoin workDir (str "preprocess")) workDir,
         FSAction.emptyCache]) := by
  unfold initFS preprocessCounter
  dsimp only
  by_cases h : 0 < (preprocess getType copyFile filepaths workDir prior).2.2.success
  · rw [if_pos h]
    exact ⟨rfl, fun h0 => absurd h (by omega), fun _ => rfl⟩
  · rw [if_neg h]
    exact ⟨rfl, fun _ => rfl, fun h1 => absurd h1 h⟩

/-- Witness for C9: an empty input yields zero successes and no build
actions; one markdown file yields a success and both builds. -/
theorem claim_C9_witness :
    (initFS demoGetType demoCopy [] (str "w") none).2 = [] ∧
    (initFS demoGetType demoCopy [str "a.md"] (str "w") none).2 =
      [FSAction.ingressResponse (pathJoin (str "w") (str "preprocess")) (str "w"),
       FSAction.ingressReject (pathJoin (str "w") (str "preprocess")) (str "w"),
       FSAction.emptyCache] :=
  ⟨(claim_C9_initFS_gating demoGetType demoCopy [] (str "w") none).2.1 (by decide),
   (claim_C9_initFS_gating demoGetType demoCopy [str "a.md"] (str "w") none).2.2
      (by decide)⟩

/-- Claim C10: `preprocess` is insensitive to whatever the preprocess
directory contained before (it is removed and recreated empty), and the
directory is keyed by base name alone, so the last accepted input file
with a given base name is the one its entry holds. -/
theorem claim_C10_preprocess_dedup :
    (∀ (getType : Str → Except Str Str) (copyFile : Str → Except Str Unit)
       (filepaths : List Str) (workDir : Str) (prior prior2 : Option Dir),
      preprocess getType copyFile filepaths workDir prior =
        preprocess getType copyFile filepaths workDir prior2) ∧
    (∀ (getType : Str → Except Str Str) (copyFile : Str → Except Str Unit)
       (files : List Str) (workDir : Str) (prior : Option Dir) (g ty : Str),
      getType g = .ok ty → ty ∈ copyTypes → copyFile g = .ok () →
      dirLookup (preprocessDir getType copyFile (files ++ [g]) workDir prior)
        (basename g) = some g) := by
  constructor
  · intro gt cp files wd prior prior2
    unfold preprocess
    cases prior <;> cases prior2 <;> rfl
  · intro gt cp files wd prior g ty hty hmem hcp
    have hne : ty ≠ str "image" := copyTypes_ne_image ty hmem
    rw [preprocessDir_eq, List.foldl_append]
    simp only [List.foldl_cons, List.foldl_nil]
    have hstep : ppDirStep gt cp (files.foldl (ppDirStep gt cp) []) g =
        dirInsert (files.foldl (ppDirStep gt cp) []) (basename g) g := by
      simp [ppDirStep, hty, hne, hmem, hcp]
    rw [hstep]
    simp [dirLookup, dirInsert]

/-- Witness for C10: two files named a.md in different directories; the
preprocess directory entry for a.md holds the later one. -/
theorem claim_C10_witness :
    dirLookup (preprocessDir demoGetType demoCopy ([str "x/a.md"] ++ [str "y/a.md"])
      (str "w") none) (basename (str "y/a.md")) = some (str "y/a.md") :=
  claim_C10_preprocess_dedup.2 demoGetType demoCopy [str "x/a.md"] (str "w") none
    (str "y/a.md") (str "md") rfl (by decide) rfl

